import Mathlib

/-
Verification of the EBI pipeline script (ebi.py).

The script is embedded shallowly: file handles become explicit record
states, the filesystem becomes a list of existing file paths, and the
external parallel command runner becomes an opaque effect function from
a command batch and a filesystem to a new filesystem.  Python strings
are Lean strings; the few string operations the script uses
(os.path.basename, os.path.join, str.endswith, the one regular
expression) are defined below over the character list of the string.
-/

namespace Ebi

/-! ## String helpers (Python semantics) -/

/-- Python str.endswith: the suffix test on strings. -/
def strEndsWith (s suf : String) : Bool :=
  decide (suf.data <:+ s.data)

/-- Drop the last n characters of a string. -/
def strDropRight (s : String) (n : Nat) : String :=
  String.mk (s.data.take (s.data.length - n))

/-- Does the string contain no newline character?  The regex dot of
Python does not match a newline, so the captured stem never holds one. -/
def noNewline (s : String) : Bool :=
  decide ('\n' ∉ s.data)

/-- os.path.basename for POSIX paths: everything after the last slash. -/
def osBasename (p : String) : String :=
  String.mk ((p.data.reverse.takeWhile (fun c => c ≠ '/')).reverse)

/-- os.path.join for POSIX paths, two arguments, as posixpath.join does:
an absolute second component replaces the first; otherwise the parts are
glued with a slash unless the first part is empty or already ends in one. -/
def pyJoin (a b : String) : String :=
  if b.data.head? = some '/' then b
  else if a.data = [] ∨ a.data.getLast? = some '/' then String.mk (a.data ++ b.data)
  else String.mk (a.data ++ '/' :: b.data)

/-! ## Errors

The script signals failure through uncaught Python exceptions.  Three
kinds occur: the explicit `raise Exception(msg)` calls, the TypeError
raised by the membership test `x in None` when csv.DictReader finds no
header row on an exhausted stream, and the KeyError from `m['url']`
when a row lacks that column. -/

inductive PyErr where
  | exception (msg : String)
  | typeError
  | keyError (key : String)
deriving DecidableEq

/-! ## Metadata lookup (find_meta, ebi.py lines 100-112) -/

/-- The state of the open metadata file handle: its name and the records
(already split on commas) not yet consumed by a csv reader. -/
structure Handle where
  name : String
  lines : List (List String)
deriving DecidableEq

/-- One record of csv.DictReader: fieldnames zipped with the row values.
A short row leaves the trailing columns absent, as DictReader leaves
them None (and None never equals a string). -/
def mkRow (header vals : List String) : List (String × String) :=
  header.zip vals

/-- Dictionary lookup on a row.  dict(zip(keys, vals)) keeps the last
value bound to a duplicated key, hence the search over the reversal. -/
def rowGet (r : List (String × String)) (k : String) : Option String :=
  (r.reverse.find? (fun p => p.1 == k)).map Prod.snd

/-- The filter predicate of find_meta:
row['experiment_id'] == str(exp_id).  Pure string equality. -/
def fieldMatches (expId : Int) (r : List (String × String)) : Bool :=
  rowGet r "experiment_id" == some (toString expId)

/-- The data rows a DictReader yields after the header: blank records
are skipped, the rest are zipped with the field names. -/
def readerRows (header : List String) (rest : List (List String)) :
    List (List (String × String)) :=
  (rest.filter (fun r => !r.isEmpty)).map (mkRow header)

/-- find_meta (ebi.py lines 100-112).  Builds a DictReader on the
handle, checks the header for the experiment_id field, filters the rows
by string equality with str(exp_id), and fails when none match.  The
list(filter(...)) call consumes the stream to its end, so the returned
handle has no lines left.  On an already exhausted handle the reader
has fieldnames None and the membership test raises a TypeError. -/
def find_meta (expId : Int) (fh : Handle) :
    Except PyErr (List (List (String × String)) × Handle) :=
  match fh.lines with
  | [] => .error .typeError
  | header :: rest =>
    if header.contains "experiment_id" then
      let meta := (readerRows header rest).filter (fieldMatches expId)
      if meta.isEmpty then
        .error (.exception ("experiment_id \"" ++ toString expId ++ "\" not found"))
      else
        .ok (meta, { fh with lines := [] })
    else
      .error (.exception ("\"" ++ fh.name ++ "\" missing \"experiment_id\" field"))

/-! ## File retrieval (get_files, ebi.py lines 116-146)

The filesystem is a list of paths of existing files; os.path.isfile is
membership.  The external runner parallelprocs.run is an opaque effect
taking the command batch and the filesystem to a new filesystem; the
script invokes it only when the batch is nonempty. -/

/-- The download command queued for a url and its destination:
f-string iget -f file path. -/
def igetCmd (file path : String) : String :=
  "iget -f " ++ file ++ " " ++ path

/-- The loop body of get_files over the url list, threading the
accumulated expected and todo lists exactly as the Python loop does:
skip a destination already expected, record a destination whose file
exists, otherwise queue an iget command. -/
def get_files_loop (rawDir : String) (fs : List String) :
    List String → List String × List String → List String × List String
  | [], acc => acc
  | file :: rest, (expected, todo) =>
    let path := pyJoin rawDir (osBasename file)
    if expected.contains path then
      get_files_loop rawDir fs rest (expected, todo)
    else if fs.contains path then
      get_files_loop rawDir fs rest (expected ++ [path], todo)
    else
      get_files_loop rawDir fs rest (expected ++ [path], todo ++ [igetCmd file path])

/-- The expected and todo lists get_files builds before running the
batch. -/
def get_files_plan (files : List String) (dataDir : String) (fs : List String) :
    List String × List String :=
  get_files_loop (pyJoin dataDir "raw") fs files ([], [])

/-- The postcondition check at the end of get_files (lines 142-146):
collect the expected paths that are not files and fail listing them all,
joined by a comma, when any exist. -/
def get_files_check (expected fs : List String) : Except PyErr (List String) :=
  let missing := expected.filter (fun f => !fs.contains f)
  if missing.isEmpty then .ok expected
  else .error (.exception ("Failed to download " ++ String.intercalate ", " missing))

/-- get_files (ebi.py lines 116-146).  Returns the script result
together with the filesystem after the call; eff is the opaque effect
of parallelprocs.run, invoked only when the todo batch is nonempty. -/
def get_files (files : List String) (dataDir : String) (fs : List String)
    (eff : List String → List String → List String) :
    Except PyErr (List String) × List String :=
  let plan := get_files_plan files dataDir fs
  let fs1 := if plan.2.isEmpty then fs else eff plan.2 fs
  (get_files_check plan.1 fs1, fs1)

/-! ## Quality control (run_qc, ebi.py lines 150-188) -/

/-- The core of the regular expression match
re.match((.+)\.f(?:ast)?q(?:\.gz)?$, basename) against a string known
not to end in a newline: the name must end in one of the four literal
suffixes .fq, .fastq, .fq.gz, .fastq.gz, preceded by a nonempty stem
free of newlines (the dot of the pattern does not match a newline).  No
two of the four suffixes can end the same string, so the order of the
tests does not matter and the greedy capture is the unique stem. -/
def coreMatch (b : String) : Option String :=
  if strEndsWith b ".fq" && decide (3 < b.data.length) && noNewline (strDropRight b 3) then
    some (strDropRight b 3)
  else if strEndsWith b ".fastq" && decide (6 < b.data.length) && noNewline (strDropRight b 6) then
    some (strDropRight b 6)
  else if strEndsWith b ".fq.gz" && decide (6 < b.data.length) && noNewline (strDropRight b 6) then
    some (strDropRight b 6)
  else if strEndsWith b ".fastq.gz" && decide (9 < b.data.length) && noNewline (strDropRight b 9) then
    some (strDropRight b 9)
  else
    none

/-- The full regex match: the dollar anchor of Python also matches just
before one final newline, and none of the suffixes ends in a newline,
so a single trailing newline is ignored. -/
def matchStem (b : String) : Option String :=
  coreMatch (if strEndsWith b "\n" then strDropRight b 1 else b)

/-- The stem run_qc derives from a basename: the captured group when
the pattern matches, the basename verbatim otherwise. -/
def qcStem (b : String) : String :=
  (matchStem b).getD b

/-- The QC output path for an input file. -/
def qcPath (dataDir file : String) : String :=
  pyJoin (pyJoin dataDir "qc") (qcStem (osBasename file) ++ ".fa")

/-- The command template of run_qc (lines 157-158), filled with the
source stage and the output path. -/
def qcTmpl (src out : String) : String :=
  src ++ " | fastq_quality_filter -q 20 -p 80 -Q 33 " ++
    "| fastx_clipper -l 80 | fastx_collapser > " ++ out

/-- The pipeline command run_qc queues for one input file: decompress
when the basename ends in .gz, plain cat otherwise, then the fixed
filter chain into the output path. -/
def qcCmd (dataDir file : String) : String :=
  qcTmpl (if strEndsWith (osBasename file) ".gz" then "gunzip -c " ++ file
          else "cat " ++ file)
    (qcPath dataDir file)

/-- The loop body of run_qc over the input files (lines 162-179): every
input contributes its output path to expected; a file whose output is
not yet on disk also contributes a pipeline command to todo. -/
def run_qc_loop (dataDir : String) (fs : List String) :
    List String → List String × List String → List String × List String
  | [], acc => acc
  | file :: rest, (expected, todo) =>
    let out := qcPath dataDir file
    if fs.contains out then
      run_qc_loop dataDir fs rest (expected ++ [out], todo)
    else
      run_qc_loop dataDir fs rest (expected ++ [out], todo ++ [qcCmd dataDir file])

/-- The expected and todo lists run_qc builds before running the batch. -/
def run_qc_plan (files : List String) (dataDir : String) (fs : List String) :
    List String × List String :=
  run_qc_loop dataDir fs files ([], [])

/-- The postcondition check at the end of run_qc (lines 184-188),
written out on its own: the source duplicates the same four lines that
close get_files, message included. -/
def run_qc_check (expected fs : List String) : Except PyErr (List String) :=
  let missing := expected.filter (fun f => !fs.contains f)
  if missing.isEmpty then .ok expected
  else .error (.exception ("Failed to download " ++ String.intercalate ", " missing))

/-- run_qc (ebi.py lines 150-188). -/
def run_qc (files : List String) (dataDir : String) (fs : List String)
    (eff : List String → List String → List String) :
    Except PyErr (List String) × List String :=
  let plan := run_qc_plan files dataDir fs
  let fs1 := if plan.2.isEmpty then fs else eff plan.2 fs
  (run_qc_check plan.1 fs1, fs1)

/-! ## Driver (process and main, ebi.py lines 73-96) -/

/-- The mutable state the driver threads through the run: the one open
metadata handle and the filesystem. -/
structure St where
  handle : Handle
  fs : List String
deriving DecidableEq

/-- The url of one metadata row, m['url']: a KeyError when the row has
no url column. -/
def urlOf (m : List (String × String)) : Except PyErr String :=
  match rowGet m "url" with
  | some u => .ok u
  | none => .error (.keyError "url")

/-- process (ebi.py lines 90-96): look the id up in the metadata
handle, map the rows to their urls, fetch the files, run QC.  Any error
propagates; on success the handle comes back exhausted and the
filesystem updated. -/
def process (dataDir : String) (eff : List String → List String → List String)
    (expId : Int) (st : St) : Except PyErr St :=
  match find_meta expId st.handle with
  | .error e => .error e
  | .ok (meta, h1) =>
    match meta.mapM urlOf with
    | .error e => .error e
    | .ok urls =>
      match get_files urls dataDir st.fs eff with
      | (.error e, _) => .error e
      | (.ok locals, fs1) =>
        match run_qc locals dataDir fs1 eff with
        | (.error e, _) => .error e
        | (.ok _, fs2) => .ok ⟨h1, fs2⟩

/-- Python format of the f-string segment i:3 : the decimal form padded
on the left with spaces to width 3. -/
def fmt3 (i : Nat) : String :=
  let s := toString i
  if s.data.length < 3 then String.mk (List.replicate (3 - s.data.length) ' ') ++ s
  else s

/-- The loop of main (ebi.py lines 82-86) from ordinal i on: print the
ordinal and the id, process the id, stop at the first error; after the
last id print Done.  Returns the lines printed to stdout and the
outcome. -/
def mainGo (dataDir : String) (eff : List String → List String → List String)
    (i : Nat) (ids : List Int) (st : St) (out : List String) :
    List String × Except PyErr St :=
  match ids with
  | [] => (out ++ ["Done."], .ok st)
  | expId :: rest =>
    let out := out ++ [fmt3 i ++ ": " ++ toString expId]
    match process dataDir eff expId st with
    | .error e => (out, .error e)
    | .ok st1 => mainGo dataDir eff (i + 1) rest st1 out

/-- The run of main after argument parsing: enumerate the requested ids
from 1 over the single open metadata handle. -/
def mainRun (ids : List Int) (metaName : String) (metaLines : List (List String))
    (fs : List String) (dataDir : String)
    (eff : List String → List String → List String) :
    List String × Except PyErr St :=
  mainGo dataDir eff 1 ids ⟨⟨metaName, metaLines⟩, fs⟩ []

/-! ## Specification-side helpers

Closed forms used to state what the two accumulating loops compute. -/

/-- The destination path get_files derives from a url. -/
def destOf (rawDir url : String) : String :=
  pyJoin rawDir (osBasename url)

/-- Keep the first occurrence of every element not already seen:
the closed form of the expected list the get_files loop accumulates. -/
def dedupNew (seen : List String) : List String → List String
  | [] => []
  | x :: xs =>
    if seen.contains x then dedupNew seen xs
    else x :: dedupNew (seen ++ [x]) xs

/-- The closed form of the download batch the get_files loop
accumulates: one iget command per first-seen destination that is not
already a file. -/
def planTodo (rawDir : String) (fs seen : List String) : List String → List String
  | [] => []
  | u :: us =>
    let path := destOf rawDir u
    if seen.contains path then planTodo rawDir fs seen us
    else if fs.contains path then planTodo rawDir fs (seen ++ [path]) us
    else igetCmd u path :: planTodo rawDir fs (seen ++ [path]) us

/-! ## Theorems on metadata lookup -/

/-- C2: whenever the header carries the experiment_id field and at
least one data row matches, find_meta succeeds and returns exactly the
rows whose experiment_id entry string-equals the decimal form of the
requested id, in source order, with the stream consumed. -/
theorem find_meta_matches_spec (name : String) (header : List String)
    (rest : List (List String)) (expId : Int)
    (hfield : header.contains "experiment_id" = true)
    (hsome : (readerRows header rest).filter
      (fun r => rowGet r "experiment_id" == some (toString expId)) ≠ []) :
    find_meta expId ⟨name, header :: rest⟩ =
      .ok ((readerRows header rest).filter
        (fun r => rowGet r "experiment_id" == some (toString expId)), ⟨name, []⟩) := by
  have hsome2 : ((readerRows header rest).filter (fieldMatches expId)).isEmpty = false := by
    simpa [fieldMatches, List.isEmpty_iff] using hsome
  simp only [find_meta]
  rw [if_pos hfield, if_neg (by simp [hsome2])]
  rfl

theorem find_meta_matches_spec_witness :
    find_meta 2 ⟨"meta.csv", [["experiment_id", "url"], ["2", "a"], ["3", "b"], ["2", "c"]]⟩ =
      .ok ([[("experiment_id", "2"), ("url", "a")], [("experiment_id", "2"), ("url", "c")]],
        ⟨"meta.csv", []⟩) :=
  find_meta_matches_spec "meta.csv" ["experiment_id", "url"]
    [["2", "a"], ["3", "b"], ["2", "c"]] 2 (by decide) (by decide)

/-- C7: find_meta fails with the message naming the missing field and
the handle name when the header lacks experiment_id; it fails with the
message naming the id when no row matches; and in every other case on a
stream holding a header row it returns successfully. -/
theorem find_meta_error_spec (name : String) (header : List String)
    (rest : List (List String)) (expId : Int) :
    (header.contains "experiment_id" = false →
      find_meta expId ⟨name, header :: rest⟩ =
        .error (.exception ("\"" ++ name ++ "\" missing \"experiment_id\" field"))) ∧
    (header.contains "experiment_id" = true →
      (readerRows header rest).filter (fieldMatches expId) = [] →
      find_meta expId ⟨name, header :: rest⟩ =
        .error (.exception ("experiment_id \"" ++ toString expId ++ "\" not found"))) ∧
    (header.contains "experiment_id" = true →
      (readerRows header rest).filter (fieldMatches expId) ≠ [] →
      ∃ meta h1, find_meta expId ⟨name, header :: rest⟩ = .ok (meta, h1)) := by
  refine ⟨fun hmiss => ?_, fun hfield hempty => ?_, fun hfield hsome => ?_⟩
  · simp only [find_meta]
    rw [if_neg (by rw [hmiss]; simp)]
  · simp only [find_meta]
    rw [if_pos hfield, if_pos (by simp [hempty])]
  · have hsome2 : ((readerRows header rest).filter (fieldMatches expId)).isEmpty = false := by
      simpa [List.isEmpty_iff] using hsome
    refine ⟨(readerRows header rest).filter (fieldMatches expId), ⟨name, []⟩, ?_⟩
    simp only [find_meta]
    rw [if_pos hfield, if_neg (by simp [hsome2])]

theorem find_meta_error_spec_witness :
    find_meta 5 ⟨"x.csv", [["id", "url"], ["5", "u"]]⟩ =
      .error (.exception "\"x.csv\" missing \"experiment_id\" field") :=
  (find_meta_error_spec "x.csv" ["id", "url"] [["5", "u"]] 5).1 (by decide)

/-- C9: a successful find_meta call leaves the handle exhausted, and
any further find_meta call on that handle raises the TypeError of the
membership test on the None fieldnames of a DictReader built over an
empty stream, whatever id is asked for. -/
theorem find_meta_exhausts (expId : Int) (fh : Handle)
    (meta : List (List (String × String))) (h1 : Handle)
    (hok : find_meta expId fh = .ok (meta, h1)) :
    h1.lines = [] ∧ ∀ expId2 : Int, find_meta expId2 h1 = .error .typeError := by
  obtain ⟨name, lines⟩ := fh
  cases lines with
  | nil => exact absurd hok (by simp [find_meta])
  | cons header rest =>
    simp only [find_meta] at hok
    split at hok
    · split at hok
      · exact absurd hok (by simp)
      · obtain ⟨-, hh⟩ := Prod.mk.injEq .. ▸ Except.ok.inj hok
        subst hh
        exact ⟨rfl, fun _ => rfl⟩
    · exact absurd hok (by simp)

theorem find_meta_exhausts_witness :
    find_meta 2 ⟨"m", []⟩ = .error .typeError :=
  (find_meta_exhausts 1 ⟨"m", [["experiment_id", "url"], ["1", "u"]]⟩
    [[("experiment_id", "1"), ("url", "u")]] ⟨"m", []⟩ rfl).2 2

/-- C1: the failing input for the multi-id driver loop.  Both requested
ids sit in the metadata table and the runner produces every download
and every QC output, yet the run prints the two ordinals and aborts
with a TypeError at the second lookup, because the first call to
find_meta exhausted the shared handle; Done. is never printed.  The
claim instead requires the second lookup to see the full table and the
run to end with Done. -/
theorem main_second_lookup_raises :
    mainRun [1, 2] "meta.csv" [["experiment_id", "url"], ["1", "u1"], ["2", "u2"]] [] "/data"
      (fun _ fs => fs ++ ["/data/raw/u1", "/data/qc/u1.fa", "/data/raw/u2", "/data/qc/u2.fa"]) =
      (["  1: 1", "  2: 2"], .error .typeError) := rfl

/-! ## Helper lemmas on paths and the retrieval loop -/

/-- The basename of a path never contains a slash. -/
theorem osBasename_no_slash (p : String) : '/' ∉ (osBasename p).data := by
  intro h
  have h2 : '/' ∈ p.data.reverse.takeWhile (fun c => c ≠ '/') := by
    simpa [osBasename] using h
  have h3 := List.mem_takeWhile_imp h2
  simp at h3

/-- The raw directory path ends in the three characters raw. -/
theorem pyJoin_raw_data (dataDir : String) :
    ∃ l, (pyJoin dataDir "raw").data = l ++ ['r', 'a', 'w'] := by
  simp only [pyJoin]
  rw [if_neg (by decide : ¬("raw" : String).data.head? = some '/')]
  by_cases h : dataDir.data = [] ∨ dataDir.data.getLast? = some '/'
  · rw [if_pos h]
    exact ⟨dataDir.data, rfl⟩
  · rw [if_neg h]
    exact ⟨dataDir.data ++ ['/'], by simp⟩

/-- When the second part is relative and the first is nonempty with no
trailing slash, the join is plain concatenation around one slash. -/
theorem pyJoin_eq_append (a b : String)
    (hb : ¬ b.data.head? = some '/')
    (ha : ¬ (a.data = [] ∨ a.data.getLast? = some '/')) :
    pyJoin a b = a ++ "/" ++ b := by
  simp only [pyJoin]
  rw [if_neg hb, if_neg ha]
  apply String.ext
  have hs : ("/" : String).data = ['/'] := rfl
  simp [String.data_append, hs]

/-- The destination of a url under the raw directory, written as plain
concatenation: the path always lies directly under the raw directory. -/
theorem destOf_eq_append (dataDir u : String) :
    destOf (pyJoin dataDir "raw") u = pyJoin dataDir "raw" ++ "/" ++ osBasename u := by
  apply pyJoin_eq_append
  · intro h
    have hmem : '/' ∈ (osBasename u).data := by
      cases hd : (osBasename u).data with
      | nil => rw [hd] at h; simp at h
      | cons c cs =>
        rw [hd] at h
        simp only [List.head?_cons, Option.some.injEq] at h
        subst h
        exact List.mem_cons_self _ _
    exact osBasename_no_slash u hmem
  · obtain ⟨l, hl⟩ := pyJoin_raw_data dataDir
    rintro (h | h)
    · rw [hl] at h; simp at h
    · rw [hl, List.getLast?_append] at h; simp at h

/-- The get_files loop in closed form: the expected accumulator grows
by the first-seen destinations, the todo accumulator by one iget
command per first-seen destination that is not yet a file. -/
theorem get_files_loop_eq (rawDir : String) (fs : List String) :
    ∀ (files expected todo : List String),
      get_files_loop rawDir fs files (expected, todo) =
        (expected ++ dedupNew expected (files.map (destOf rawDir)),
          todo ++ planTodo rawDir fs expected files)
  | [], expected, todo => by simp [get_files_loop, dedupNew, planTodo]
  | file :: rest, expected, todo => by
    simp only [get_files_loop, dedupNew, planTodo, destOf, List.map_cons]
    split
    · rw [get_files_loop_eq rawDir fs rest expected todo]
    · split
      · rw [get_files_loop_eq rawDir fs rest (expected ++ [pyJoin rawDir (osBasename file)]) todo]
        simp
      · rw [get_files_loop_eq rawDir fs rest (expected ++ [pyJoin rawDir (osBasename file)])
          (todo ++ [igetCmd file (pyJoin rawDir (osBasename file))])]
        simp

/-- Membership in the deduplicated list: the values of the input not
already seen. -/
theorem mem_dedupNew (x : String) :
    ∀ (l seen : List String), x ∈ dedupNew seen l ↔ x ∈ l ∧ x ∉ seen
  | [], seen => by simp [dedupNew]
  | y :: ys, seen => by
    simp only [dedupNew]
    by_cases h : seen.contains y = true
    · rw [if_pos h]
      have hy : y ∈ seen := by simpa using h
      rw [mem_dedupNew x ys seen]
      constructor
      · rintro ⟨hxs, hxe⟩
        exact ⟨List.mem_cons_of_mem y hxs, hxe⟩
      · rintro ⟨hor, hxe⟩
        rcases List.mem_cons.1 hor with heq | hxs
        · exact absurd (heq ▸ hy) hxe
        · exact ⟨hxs, hxe⟩
    · rw [if_neg h]
      have hy : y ∉ seen := by simpa using h
      rw [List.mem_cons, mem_dedupNew x ys (seen ++ [y])]
      constructor
      · rintro (rfl | ⟨hxs, hxe⟩)
        · exact ⟨List.mem_cons_self _ _, hy⟩
        · refine ⟨List.mem_cons_of_mem y hxs, fun hc => hxe ?_⟩
          simp [hc]
      · rintro ⟨hor, hxe⟩
        rcases List.mem_cons.1 hor with heq | hxs
        · exact Or.inl heq
        · by_cases hxy : x = y
          · exact Or.inl hxy
          · exact Or.inr ⟨hxs, by simp [hxe, hxy]⟩

/-- The deduplicated list has no duplicate. -/
theorem nodup_dedupNew : ∀ (l seen : List String), (dedupNew seen l).Nodup
  | [], _ => by simp [dedupNew]
  | y :: ys, seen => by
    simp only [dedupNew]
    split
    · exact nodup_dedupNew ys seen
    · refine List.nodup_cons.2 ⟨fun hmem => ?_, nodup_dedupNew ys (seen ++ [y])⟩
      have h2 := (mem_dedupNew y ys (seen ++ [y])).1 hmem
      exact h2.2 (by simp)

/-- When every destination is already a file, the loop queues nothing. -/
theorem planTodo_eq_nil (rawDir : String) (fs : List String) :
    ∀ (us seen : List String), (∀ u ∈ us, fs.contains (destOf rawDir u) = true) →
      planTodo rawDir fs seen us = []
  | [], _, _ => rfl
  | u :: us, seen, h => by
    simp only [planTodo]
    have hu : fs.contains (destOf rawDir u) = true := h u (List.mem_cons_self _ _)
    by_cases hs : seen.contains (destOf rawDir u) = true
    · rw [if_pos hs]
      exact planTodo_eq_nil rawDir fs us seen
        (fun v hv => h v (List.mem_cons_of_mem u hv))
    · rw [if_neg hs, if_pos hu]
      exact planTodo_eq_nil rawDir fs us (seen ++ [destOf rawDir u])
        (fun v hv => h v (List.mem_cons_of_mem u hv))

/-- The shared shape of the two postcondition checks, success side:
ok exactly when every expected path is a file. -/
theorem get_files_check_eq_ok (expected fs res : List String) :
    get_files_check expected fs = .ok res ↔
      res = expected ∧ ∀ p ∈ expected, fs.contains p = true := by
  unfold get_files_check
  by_cases h : (expected.filter (fun f => !fs.contains f)).isEmpty = true
  · rw [if_pos h]
    have h2 : ∀ p ∈ expected, fs.contains p = true := by
      rw [List.isEmpty_iff, List.filter_eq_nil_iff] at h
      intro p hp
      have := h p hp
      simpa using this
    constructor
    · intro he
      exact ⟨(Except.ok.inj he).symm, h2⟩
    · rintro ⟨rfl, -⟩
      rfl
  · rw [if_neg h]
    rw [List.isEmpty_iff, List.filter_eq_nil_iff] at h
    push_neg at h
    obtain ⟨p, hp, hc⟩ := h
    constructor
    · intro hcon
      exact absurd hcon (by simp)
    · rintro ⟨-, hall⟩
      rw [hall p hp] at hc
      simp at hc

/-! ## Theorems on file retrieval -/

/-- C4: the expected list of get_files keeps, in first-seen order and
without duplicate, the destination raw-dir slash basename of each url,
and every entry lies directly under the raw directory. -/
theorem get_files_expected_spec (files : List String) (dataDir : String) (fs : List String) :
    (get_files_plan files dataDir fs).1 =
      dedupNew [] (files.map (destOf (pyJoin dataDir "raw"))) ∧
    (get_files_plan files dataDir fs).1.Nodup ∧
    ∀ p ∈ (get_files_plan files dataDir fs).1,
      ∃ u ∈ files, p = pyJoin dataDir "raw" ++ "/" ++ osBasename u := by
  have h1 : (get_files_plan files dataDir fs).1 =
      dedupNew [] (files.map (destOf (pyJoin dataDir "raw"))) := by
    unfold get_files_plan
    rw [get_files_loop_eq]
    simp
  refine ⟨h1, h1 ▸ nodup_dedupNew _ _, fun p hp => ?_⟩
  rw [h1] at hp
  obtain ⟨hmem, -⟩ := (mem_dedupNew p _ []).1 hp
  obtain ⟨u, hu, rfl⟩ := List.mem_map.1 hmem
  exact ⟨u, hu, destOf_eq_append dataDir u⟩

theorem get_files_expected_spec_witness :
    (get_files_plan ["ftp://h/a/x.fq", "ftp://g/b/x.fq", "y.fq"] "/d" []).1 =
      dedupNew [] (["ftp://h/a/x.fq", "ftp://g/b/x.fq", "y.fq"].map (destOf (pyJoin "/d" "raw"))) ∧
    (get_files_plan ["ftp://h/a/x.fq", "ftp://g/b/x.fq", "y.fq"] "/d" []).1.Nodup ∧
    ∀ p ∈ (get_files_plan ["ftp://h/a/x.fq", "ftp://g/b/x.fq", "y.fq"] "/d" []).1,
      ∃ u ∈ ["ftp://h/a/x.fq", "ftp://g/b/x.fq", "y.fq"],
        p = pyJoin "/d" "raw" ++ "/" ++ osBasename u :=
  get_files_expected_spec ["ftp://h/a/x.fq", "ftp://g/b/x.fq", "y.fq"] "/d" []

/-- C5: a run of get_files that succeeded leaves a filesystem on which
the same call plans an empty download batch and returns the same
expected list with the filesystem untouched. -/
theorem get_files_idempotent (files : List String) (dataDir : String) (fs : List String)
    (eff : List String → List String → List String) (exp fs1 : List String)
    (h : get_files files dataDir fs eff = (.ok exp, fs1)) :
    (get_files_plan files dataDir fs1).2 = [] ∧
    get_files files dataDir fs1 eff = (.ok exp, fs1) := by
  simp only [get_files, Prod.mk.injEq] at h
  obtain ⟨hcheck, hfs⟩ := h
  rw [hfs] at hcheck
  obtain ⟨hexp, hall⟩ := (get_files_check_eq_ok _ _ _).1 hcheck
  have hfst : ∀ g : List String, (get_files_plan files dataDir g).1 =
      dedupNew [] (files.map (destOf (pyJoin dataDir "raw"))) := by
    intro g
    unfold get_files_plan
    rw [get_files_loop_eq]
    simp
  have hdest : ∀ u ∈ files, fs1.contains (destOf (pyJoin dataDir "raw") u) = true := by
    intro u hu
    refine hall _ ?_
    rw [hfst fs]
    exact (mem_dedupNew _ _ []).2 ⟨List.mem_map_of_mem _ hu, by simp⟩
  have htodo : (get_files_plan files dataDir fs1).2 = [] := by
    unfold get_files_plan
    rw [get_files_loop_eq]
    simpa using planTodo_eq_nil (pyJoin dataDir "raw") fs1 files [] hdest
  refine ⟨htodo, ?_⟩
  simp only [get_files]
  rw [Prod.ext_iff]
  constructor
  · rw [htodo]
    simp only [List.isEmpty_nil, if_pos]
    rw [get_files_check_eq_ok]
    refine ⟨by rw [hfst fs1, ← hfst fs, ← hexp], ?_⟩
    rw [hfst fs1, ← hfst fs]
    exact hall
  · rw [htodo]
    simp

theorem get_files_idempotent_witness :
    (get_files_plan ["u1", "u1", "u2"] "/d" ["/d/raw/u1", "/d/raw/u2"]).2 = [] ∧
    get_files ["u1", "u1", "u2"] "/d" ["/d/raw/u1", "/d/raw/u2"] (fun _ g => g) =
      (.ok ["/d/raw/u1", "/d/raw/u2"], ["/d/raw/u1", "/d/raw/u2"]) :=
  get_files_idempotent ["u1", "u1", "u2"] "/d" ["/d/raw/u1", "/d/raw/u2"]
    (fun _ g => g) ["/d/raw/u1", "/d/raw/u2"] ["/d/raw/u1", "/d/raw/u2"] rfl

/-- C6: the two postcondition checks are one and the same function of
the expected list and the filesystem; the check returns the full
expected list when every path exists and fails with the message listing
exactly the missing paths when at least one is absent. -/
theorem postcheck_spec (expected fs : List String) :
    run_qc_check expected fs = get_files_check expected fs ∧
    ((∀ p ∈ expected, fs.contains p = true) →
      get_files_check expected fs = .ok expected) ∧
    ((∃ p ∈ expected, fs.contains p = false) →
      get_files_check expected fs =
        .error (.exception ("Failed to download " ++
          String.intercalate ", " (expected.filter (fun f => !fs.contains f))))) := by
  refine ⟨rfl, fun hall => ?_, fun hmiss => ?_⟩
  · exact (get_files_check_eq_ok expected fs expected).2 ⟨rfl, hall⟩
  · unfold get_files_check
    rw [if_neg]
    rw [List.isEmpty_iff, List.filter_eq_nil_iff]
    push_neg at hmiss ⊢
    obtain ⟨p, hp, hc⟩ := hmiss
    exact ⟨p, hp, by simpa using hc⟩

theorem postcheck_spec_witness :
    run_qc_check ["/d/raw/a", "/d/raw/b"] ["/d/raw/a"] =
      get_files_check ["/d/raw/a", "/d/raw/b"] ["/d/raw/a"] ∧
    get_files_check ["/d/raw/a", "/d/raw/b"] ["/d/raw/a"] =
      .error (.exception "Failed to download /d/raw/b") :=
  ⟨(postcheck_spec ["/d/raw/a", "/d/raw/b"] ["/d/raw/a"]).1,
    (postcheck_spec ["/d/raw/a", "/d/raw/b"] ["/d/raw/a"]).2.2 ⟨"/d/raw/b", by decide⟩⟩

/-! ## Helper lemmas on suffixes and the QC loop -/

/-- Appending a suffix makes the suffix test succeed. -/
theorem ends_append (stem s : String) : strEndsWith (stem ++ s) s = true := by
  simp only [strEndsWith, decide_eq_true_eq, String.data_append]
  exact List.suffix_append _ _

/-- Dropping the length of an appended suffix gives back the stem. -/
theorem drop_append (stem s : String) (n : Nat) (hn : s.data.length = n) :
    strDropRight (stem ++ s) n = stem := by
  apply String.ext
  show ((stem ++ s).data.take ((stem ++ s).data.length - n)) = stem.data
  rw [String.data_append, List.length_append, hn, Nat.add_sub_cancel]
  exact List.take_left _ _

/-- Two would-be suffixes of one string are suffixes of one another, so
a string of the shape stem plus one literal suffix cannot also end in a
second, incomparable literal suffix. -/
theorem ends_conflict (b stem s1 s2 : String) (hb : b = stem ++ s2)
    (h1 : ¬ s1.data <:+ s2.data) (h2 : ¬ s2.data <:+ s1.data) :
    strEndsWith b s1 = false := by
  subst hb
  by_contra hc
  rw [Bool.not_eq_false] at hc
  simp only [strEndsWith, decide_eq_true_eq, String.data_append] at hc
  have hs2 : s2.data <:+ stem.data ++ s2.data := List.suffix_append _ _
  rcases List.suffix_or_suffix_of_suffix hc hs2 with h | h
  · exact h1 h
  · exact h2 h

/-- A successful suffix test decomposes the string into the dropped
stem and the suffix, and measures the stem. -/
theorem ends_decomp (b s : String) (n : Nat) (hn : s.data.length = n)
    (h : strEndsWith b s = true) :
    b = strDropRight b n ++ s ∧ (strDropRight b n).data.length = b.data.length - n := by
  simp only [strEndsWith, decide_eq_true_eq] at h
  obtain ⟨t, ht⟩ := h
  constructor
  · apply String.ext
    rw [String.data_append]
    show b.data = b.data.take (b.data.length - n) ++ s.data
    rw [← ht, List.length_append, hn, Nat.add_sub_cancel, List.take_left]
  · show (b.data.take (b.data.length - n)).length = b.data.length - n
    rw [List.length_take]
    exact min_eq_left (Nat.sub_le _ _)

/-- A string with a nonempty character list is not the empty string. -/
theorem str_ne_empty (s : String) (h : 0 < s.data.length) : s ≠ "" := by
  intro he
  rw [he] at h
  simp at h

/-- The left part of a newline-free concatenation is newline-free. -/
theorem noNewline_append_left (x y : String) (h : noNewline (x ++ y) = true) :
    noNewline x = true := by
  simp only [noNewline, decide_eq_true_eq, String.data_append] at h ⊢
  exact fun hc => h (List.mem_append_left _ hc)

/-- A newline-free string does not end in a newline. -/
theorem not_endsWith_newline (b : String) (h : noNewline b = true) :
    strEndsWith b "\n" = false := by
  simp only [noNewline, decide_eq_true_eq] at h
  by_contra hc
  rw [Bool.not_eq_false] at hc
  simp only [strEndsWith, decide_eq_true_eq] at hc
  exact h (hc.subset (by decide))

/-- The run_qc loop in closed form: every input contributes its output
path to the expected accumulator; the inputs whose output is not yet a
file contribute their pipeline command to the todo accumulator. -/
theorem run_qc_loop_eq (dataDir : String) (fs : List String) :
    ∀ (files expected todo : List String),
      run_qc_loop dataDir fs files (expected, todo) =
        (expected ++ files.map (qcPath dataDir),
          todo ++ (files.filter (fun f => !fs.contains (qcPath dataDir f))).map
            (qcCmd dataDir))
  | [], expected, todo => by simp [run_qc_loop]
  | file :: rest, expected, todo => by
    simp only [run_qc_loop, List.map_cons, List.filter_cons]
    by_cases h : qcPath dataDir file ∈ fs
    · rw [if_pos (by simpa using h : fs.contains (qcPath dataDir file) = true),
        run_qc_loop_eq dataDir fs rest (expected ++ [qcPath dataDir file]) todo]
      simp [h]
    · rw [if_neg (by simpa using h : ¬ fs.contains (qcPath dataDir file) = true),
        run_qc_loop_eq dataDir fs rest (expected ++ [qcPath dataDir file])
          (todo ++ [qcCmd dataDir file])]
      simp [h]

/-! ## Theorems on the QC runner -/

/-- C10: run_qc deduplicates nothing: its expected list has one entry
per input file, and on two distinct inputs sharing the stem sample the
plan holds the shared output path twice and queues two pipeline
commands in the same batch, both redirecting into that one file. -/
theorem run_qc_no_dedup :
    (∀ (files : List String) (dataDir : String) (fs : List String),
      (run_qc_plan files dataDir fs).1.length = files.length) ∧
    (run_qc_plan ["a/sample.fastq", "b/sample.fq"] "/d" []).1 =
      ["/d/qc/sample.fa", "/d/qc/sample.fa"] ∧
    (run_qc_plan ["a/sample.fastq", "b/sample.fq"] "/d" []).2 =
      ["cat a/sample.fastq | fastq_quality_filter -q 20 -p 80 -Q 33 " ++
        "| fastx_clipper -l 80 | fastx_collapser > /d/qc/sample.fa",
       "cat b/sample.fq | fastq_quality_filter -q 20 -p 80 -Q 33 " ++
        "| fastx_clipper -l 80 | fastx_collapser > /d/qc/sample.fa"] := by
  refine ⟨fun files dataDir fs => ?_, rfl, rfl⟩
  unfold run_qc_plan
  rw [run_qc_loop_eq]
  simp

/-- C8: the batch run_qc queues holds, for exactly the inputs whose
output file is absent, the command catting or gunzipping the source by
its .gz basename suffix into the fixed three-stage filter chain,
redirected to the computed output path. -/
theorem run_qc_todo_spec (files : List String) (dataDir : String) (fs : List String) :
    (run_qc_plan files dataDir fs).2 =
      (files.filter (fun f => !fs.contains (qcPath dataDir f))).map
        (fun f =>
          (if strEndsWith (osBasename f) ".gz" then "gunzip -c " ++ f else "cat " ++ f) ++
            " | fastq_quality_filter -q 20 -p 80 -Q 33 | fastx_clipper -l 80 | fastx_collapser > " ++
            qcPath dataDir f) := by
  have hjoin : (" | fastq_quality_filter -q 20 -p 80 -Q 33 " ++
      "| fastx_clipper -l 80 | fastx_collapser > " : String) =
      " | fastq_quality_filter -q 20 -p 80 -Q 33 | fastx_clipper -l 80 | fastx_collapser > " := rfl
  unfold run_qc_plan
  rw [run_qc_loop_eq]
  simp only [List.nil_append]
  refine List.map_congr_left (fun f _ => ?_)
  unfold qcCmd qcTmpl
  congr 1
  rw [String.append_assoc, hjoin]

theorem run_qc_todo_spec_witness :
    (run_qc_plan ["x/reads.fastq.gz", "done.fq"] "/d" ["/d/qc/done.fa"]).2 =
      (["x/reads.fastq.gz", "done.fq"].filter
        (fun f => !(["/d/qc/done.fa"].contains (qcPath "/d" f)))).map
        (fun f =>
          (if strEndsWith (osBasename f) ".gz" then "gunzip -c " ++ f else "cat " ++ f) ++
            " | fastq_quality_filter -q 20 -p 80 -Q 33 | fastx_clipper -l 80 | fastx_collapser > " ++
            qcPath "/d" f) :=
  run_qc_todo_spec ["x/reads.fastq.gz", "done.fq"] "/d" ["/d/qc/done.fa"]

/-! ## Helper lemmas for the stem characterization -/

/-- A string free of slashes does not start with one. -/
theorem head?_ne_slash (s : String) (h : '/' ∉ s.data) :
    ¬ s.data.head? = some '/' := by
  intro hc
  cases hd : s.data with
  | nil => rw [hd] at hc; simp at hc
  | cons c cs =>
    rw [hd] at hc
    simp only [List.head?_cons, Option.some.injEq] at hc
    subst hc
    exact h (hd ▸ List.mem_cons_self _ _)

/-- A nonempty string has a positive character count. -/
theorem str_pos_of_ne_empty (s : String) (h : s ≠ "") : 0 < s.data.length := by
  by_contra hc
  push_neg at hc
  have h0 : s.data = [] := List.eq_nil_of_length_eq_zero (by omega)
  exact h (String.ext (by simp [h0]))

/-- Joining a relative literal keeps it as the suffix of the result. -/
theorem pyJoin_lit_data (dataDir w : String) (hw : ¬ w.data.head? = some '/') :
    ∃ l, (pyJoin dataDir w).data = l ++ w.data := by
  simp only [pyJoin]
  rw [if_neg hw]
  by_cases h : dataDir.data = [] ∨ dataDir.data.getLast? = some '/'
  · rw [if_pos h]
    exact ⟨dataDir.data, rfl⟩
  · rw [if_neg h]
    exact ⟨dataDir.data ++ ['/'], by simp⟩

/-- A stem captured by the regex is built from characters of the
matched string. -/
theorem matchStem_subset (b stem : String) (h : matchStem b = some stem) :
    stem.data ⊆ b.data := by
  unfold matchStem at h
  set body := if strEndsWith b "\n" = true then strDropRight b 1 else b with hbody
  have hsub : body.data ⊆ b.data := by
    rw [hbody]
    split
    · exact List.take_subset _ _
    · exact fun x hx => hx
  unfold coreMatch at h
  split_ifs at h
  all_goals obtain rfl := Option.some.inj h
  all_goals exact (List.take_subset _ _).trans hsub

/-- The stem run_qc derives from a basename never holds a slash. -/
theorem qcStem_no_slash (file : String) : '/' ∉ (qcStem (osBasename file)).data := by
  unfold qcStem
  cases hm : matchStem (osBasename file) with
  | none => simpa using osBasename_no_slash file
  | some stem =>
    simp only [Option.getD_some]
    exact fun hc => osBasename_no_slash file (matchStem_subset _ _ hm hc)

/-- The QC output path, written as plain concatenation: it always lies
directly under the qc directory, with the .fa extension appended to the
stem. -/
theorem qcPath_eq_append (dataDir file : String) :
    qcPath dataDir file = pyJoin dataDir "qc" ++ "/" ++ (qcStem (osBasename file) ++ ".fa") := by
  unfold qcPath
  apply pyJoin_eq_append
  · apply head?_ne_slash
    rw [String.data_append]
    intro hc
    rcases List.mem_append.1 hc with hc | hc
    · exact qcStem_no_slash file hc
    · exact absurd hc (by decide)
  · obtain ⟨l, hl⟩ := pyJoin_lit_data dataDir "qc" (by decide)
    rintro (h | h)
    · rw [hl] at h
      simp at h
    · rw [hl, List.getLast?_append] at h
      have hc : ("qc" : String).data.getLast? = some 'c' := rfl
      rw [hc] at h
      simp at h

/-- The full characterization of the regex match on a newline-free
basename: a stem is captured exactly when the name is that nonempty
stem followed by one of the four literal suffixes. -/
theorem matchStem_iff (b stem : String) (hnl : noNewline b = true) :
    matchStem b = some stem ↔
      stem ≠ "" ∧ (b = stem ++ ".fq" ∨ b = stem ++ ".fastq" ∨
        b = stem ++ ".fq.gz" ∨ b = stem ++ ".fastq.gz") := by
  have hcore : matchStem b = coreMatch b := by
    simp [matchStem, not_endsWith_newline b hnl]
  rw [hcore]
  constructor
  · intro h
    unfold coreMatch at h
    split_ifs at h with h1 h2 h3 h4
    · rw [Bool.and_eq_true, Bool.and_eq_true] at h1
      obtain ⟨⟨hE, hL⟩, -⟩ := h1
      have hlt : 3 < b.data.length := of_decide_eq_true hL
      obtain ⟨hdec, hlen⟩ := ends_decomp b ".fq" 3 rfl hE
      obtain rfl := Option.some.inj h
      exact ⟨str_ne_empty _ (by rw [hlen]; omega), Or.inl hdec⟩
    · rw [Bool.and_eq_true, Bool.and_eq_true] at h2
      obtain ⟨⟨hE, hL⟩, -⟩ := h2
      have hlt : 6 < b.data.length := of_decide_eq_true hL
      obtain ⟨hdec, hlen⟩ := ends_decomp b ".fastq" 6 rfl hE
      obtain rfl := Option.some.inj h
      exact ⟨str_ne_empty _ (by rw [hlen]; omega), Or.inr (Or.inl hdec)⟩
    · rw [Bool.and_eq_true, Bool.and_eq_true] at h3
      obtain ⟨⟨hE, hL⟩, -⟩ := h3
      have hlt : 6 < b.data.length := of_decide_eq_true hL
      obtain ⟨hdec, hlen⟩ := ends_decomp b ".fq.gz" 6 rfl hE
      obtain rfl := Option.some.inj h
      exact ⟨str_ne_empty _ (by rw [hlen]; omega), Or.inr (Or.inr (Or.inl hdec))⟩
    · rw [Bool.and_eq_true, Bool.and_eq_true] at h4
      obtain ⟨⟨hE, hL⟩, -⟩ := h4
      have hlt : 9 < b.data.length := of_decide_eq_true hL
      obtain ⟨hdec, hlen⟩ := ends_decomp b ".fastq.gz" 9 rfl hE
      obtain rfl := Option.some.inj h
      exact ⟨str_ne_empty _ (by rw [hlen]; omega), Or.inr (Or.inr (Or.inr hdec))⟩
  · rintro ⟨hne, hbe | hbe | hbe | hbe⟩ <;> subst hbe
    · have hE : strEndsWith (stem ++ ".fq") ".fq" = true := ends_append _ _
      have hlen : (stem ++ ".fq").data.length = stem.data.length + 3 := by
        rw [String.data_append, List.length_append]
        rfl
      have hpos := str_pos_of_ne_empty stem hne
      have hL : (3 : Nat) < (stem ++ ".fq").data.length := by omega
      have hD : strDropRight (stem ++ ".fq") 3 = stem := drop_append stem ".fq" 3 rfl
      have hN : noNewline stem = true := noNewline_append_left _ _ hnl
      have hc1 : (strEndsWith (stem ++ ".fq") ".fq" &&
          decide (3 < (stem ++ ".fq").data.length) &&
          noNewline (strDropRight (stem ++ ".fq") 3)) = true := by
        rw [hE, hD, hN, decide_eq_true hL]
        rfl
      unfold coreMatch
      rw [if_pos hc1, hD]
    · have hF1 : strEndsWith (stem ++ ".fastq") ".fq" = false :=
        ends_conflict _ stem ".fq" ".fastq" rfl (by decide) (by decide)
      have hE : strEndsWith (stem ++ ".fastq") ".fastq" = true := ends_append _ _
      have hlen : (stem ++ ".fastq").data.length = stem.data.length + 6 := by
        rw [String.data_append, List.length_append]
        rfl
      have hpos := str_pos_of_ne_empty stem hne
      have hL : (6 : Nat) < (stem ++ ".fastq").data.length := by omega
      have hD : strDropRight (stem ++ ".fastq") 6 = stem := drop_append stem ".fastq" 6 rfl
      have hN : noNewline stem = true := noNewline_append_left _ _ hnl
      have hc2 : (strEndsWith (stem ++ ".fastq") ".fastq" &&
          decide (6 < (stem ++ ".fastq").data.length) &&
          noNewline (strDropRight (stem ++ ".fastq") 6)) = true := by
        rw [hE, hD, hN, decide_eq_true hL]
        rfl
      unfold coreMatch
      rw [if_neg (by rw [hF1]; simp), if_pos hc2, hD]
    · have hF1 : strEndsWith (stem ++ ".fq.gz") ".fq" = false :=
        ends_conflict _ stem ".fq" ".fq.gz" rfl (by decide) (by decide)
      have hF2 : strEndsWith (stem ++ ".fq.gz") ".fastq" = false :=
        ends_conflict _ stem ".fastq" ".fq.gz" rfl (by decide) (by decide)
      have hE : strEndsWith (stem ++ ".fq.gz") ".fq.gz" = true := ends_append _ _
      have hlen : (stem ++ ".fq.gz").data.length = stem.data.length + 6 := by
        rw [String.data_append, List.length_append]
        rfl
      have hpos := str_pos_of_ne_empty stem hne
      have hL : (6 : Nat) < (stem ++ ".fq.gz").data.length := by omega
      have hD : strDropRight (stem ++ ".fq.gz") 6 = stem := drop_append stem ".fq.gz" 6 rfl
      have hN : noNewline stem = true := noNewline_append_left _ _ hnl
      have hc3 : (strEndsWith (stem ++ ".fq.gz") ".fq.gz" &&
          decide (6 < (stem ++ ".fq.gz").data.length) &&
          noNewline (strDropRight (stem ++ ".fq.gz") 6)) = true := by
        rw [hE, hD, hN, decide_eq_true hL]
        rfl
      unfold coreMatch
      rw [if_neg (by rw [hF1]; simp), if_neg (by rw [hF2]; simp), if_pos hc3, hD]
    · have hF1 : strEndsWith (stem ++ ".fastq.gz") ".fq" = false :=
        ends_conflict _ stem ".fq" ".fastq.gz" rfl (by decide) (by decide)
      have hF2 : strEndsWith (stem ++ ".fastq.gz") ".fastq" = false :=
        ends_conflict _ stem ".fastq" ".fastq.gz" rfl (by decide) (by decide)
      have hF3 : strEndsWith (stem ++ ".fastq.gz") ".fq.gz" = false :=
        ends_conflict _ stem ".fq.gz" ".fastq.gz" rfl (by decide) (by decide)
      have hE : strEndsWith (stem ++ ".fastq.gz") ".fastq.gz" = true := ends_append _ _
      have hlen : (stem ++ ".fastq.gz").data.length = stem.data.length + 9 := by
        rw [String.data_append, List.length_append]
        rfl
      have hpos := str_pos_of_ne_empty stem hne
      have hL : (9 : Nat) < (stem ++ ".fastq.gz").data.length := by omega
      have hD : strDropRight (stem ++ ".fastq.gz") 9 = stem := drop_append stem ".fastq.gz" 9 rfl
      have hN : noNewline stem = true := noNewline_append_left _ _ hnl
      have hc4 : (strEndsWith (stem ++ ".fastq.gz") ".fastq.gz" &&
          decide (9 < (stem ++ ".fastq.gz").data.length) &&
          noNewline (strDropRight (stem ++ ".fastq.gz") 9)) = true := by
        rw [hE, hD, hN, decide_eq_true hL]
        rfl
      unfold coreMatch
      rw [if_neg (by rw [hF1]; simp), if_neg (by rw [hF2]; simp),
        if_neg (by rw [hF3]; simp), if_pos hc4, hD]

/-- C3: the stem of a newline-free basename is captured exactly when
the name is a nonempty stem followed by the literal suffixes .fq,
.fastq, .fq.gz or .fastq.gz (the regex, case-sensitive, anchored at the
end) and the basename is used verbatim when the pattern does not match;
the QC output path of every input is qc-dir slash stem dot fa; and the
three worked examples of the specification evaluate as stated. -/
theorem run_qc_stem_spec :
    (∀ (b stem : String), noNewline b = true →
      (matchStem b = some stem ↔
        stem ≠ "" ∧ (b = stem ++ ".fq" ∨ b = stem ++ ".fastq" ∨
          b = stem ++ ".fq.gz" ∨ b = stem ++ ".fastq.gz"))) ∧
    (∀ b : String, matchStem b = none → qcStem b = b) ∧
    (∀ (files : List String) (dataDir : String) (fs : List String),
      (run_qc_plan files dataDir fs).1 = files.map (qcPath dataDir)) ∧
    (∀ (dataDir file : String),
      qcPath dataDir file = pyJoin dataDir "qc" ++ "/" ++ (qcStem (osBasename file) ++ ".fa")) ∧
    qcStem "sample.fastq.gz" = "sample" ∧
    qcStem "sample.fq" = "sample" ∧
    qcStem "weird.name.txt" = "weird.name.txt" ∧
    qcStem "sample.FASTQ" = "sample.FASTQ" ∧
    qcPath "/data" "weird.name.txt" = "/data/qc/weird.name.txt.fa" := by
  refine ⟨fun b stem hnl => matchStem_iff b stem hnl,
    fun b hn => by simp [qcStem, hn],
    fun files dataDir fs => ?_,
    qcPath_eq_append,
    rfl, rfl, rfl, rfl, rfl⟩
  unfold run_qc_plan
  rw [run_qc_loop_eq]
  simp

theorem run_qc_stem_spec_witness :
    matchStem "reads_1.fastq.gz" = some "reads_1" ∧ qcStem "notes.csv" = "notes.csv" :=
  ⟨(run_qc_stem_spec.1 "reads_1.fastq.gz" "reads_1" (by decide)).2
    ⟨by decide, Or.inr (Or.inr (Or.inr rfl))⟩,
   run_qc_stem_spec.2.1 "notes.csv" (by decide)⟩

end Ebi
